import Mathlib

/-!
Shallow embedding of the client-side engine of `bank-statement-analyzer`
(file `src/unnamed/part_000`, an IIFE driving the upload/processing UI).

JS strings are modelled as `List Char`; JS numbers occurring in amount
parsing/formatting and progress payloads are modelled as exact rationals
(`ℚ`).  Fallible parsing returns `Option`.  Each definition carries a
comment pointing at the source function it embeds.
-/

/-- Whitespace recognised by `String.prototype.trim` (the common ASCII part). -/
def isSpaceChar (c : Char) : Bool :=
  c = ' ' || c = '\t' || c = '\n' || c = '\r' || c = '\x0b' || c = '\x0c'

/-- JS `String.prototype.trim`: drop whitespace from both ends. -/
def jsTrim (cs : List Char) : List Char :=
  ((cs.dropWhile isSpaceChar).reverse.dropWhile isSpaceChar).reverse

/-- Decimal digit to its character, for building decimal strings. -/
def digitChar (d : Nat) : Char :=
  match d with
  | 0 => '0' | 1 => '1' | 2 => '2' | 3 => '3' | 4 => '4'
  | 5 => '5' | 6 => '6' | 7 => '7' | 8 => '8' | _ => '9'

/-- Numeric value of a decimal digit character. -/
def charDigitVal (c : Char) : Nat := c.toNat - 48

/-- Value of a string of decimal digit characters (most significant first). -/
def natOfDigitChars (cs : List Char) : Nat :=
  cs.foldl (fun a c => a * 10 + charDigitVal c) 0

/-- Decimal digit characters of `n`, most significant first (JS `String(n)`). -/
def natDigitChars (n : Nat) : List Char :=
  if n = 0 then ['0'] else (Nat.digits 10 n).reverse.map digitChar

/-- JS `String(n).padStart(3, '0')` used for fallback row ids. -/
def padStart3Zeros (cs : List Char) : List Char :=
  if 3 ≤ cs.length then cs else List.replicate (3 - cs.length) '0' ++ cs

/-- Characters kept by the cleaning step of `parseAmountForFormatting`
(part_000 lines 843-845): the regex `/[^\d.\-]/g` removes everything but
digits, `.` and `-`; the preceding `replaceAll(',', '')` is subsumed. -/
def isAmountKeptChar (c : Char) : Bool :=
  c.isDigit || c = '.' || c = '-'

/-- Unsigned part of the JS `parseFloat` model: the longest prefix
`digits [. digits]` or `. digits`; anything after that prefix is ignored; an
empty integer and fraction part means no valid prefix (NaN). -/
def parseFloatMag (rest : List Char) : Option ℚ :=
  let intPart := rest.takeWhile Char.isDigit
  let rest2 := rest.drop intPart.length
  let fracPart :=
    match rest2 with
    | '.' :: t => t.takeWhile Char.isDigit
    | _ => []
  if intPart = [] ∧ fracPart = [] then none
  else
    some ((natOfDigitChars intPart : ℚ)
      + (natOfDigitChars fracPart : ℚ) / (10 : ℚ) ^ fracPart.length)

/-- JS `parseFloat` restricted to strings over the alphabet `{0-9, '.', '-'}`,
which is the only input it receives after the cleaning step: an optional
leading minus sign, then an unsigned decimal prefix; no valid prefix gives
`none` (NaN). -/
def parseFloatCleaned (cs : List Char) : Option ℚ :=
  match cs with
  | '-' :: rest => (parseFloatMag rest).map (fun q => -q)
  | rest => parseFloatMag rest

/-- Embeds `parseAmountForFormatting` (part_000 lines 838-852): trim, detect a
parenthesised negative, strip all but digits/`.`/`-`, reject degenerate
cleaned strings, parse, and negate a positive result wrapped in parentheses. -/
def parseAmountForFormatting (value : List Char) : Option ℚ :=
  let raw := jsTrim value
  if raw = [] then none
  else
    let hasParenNegative : Bool := raw.head? = some '(' && raw.getLast? = some ')'
    let cleaned := raw.filter isAmountKeptChar
    if cleaned = [] ∨ cleaned = ['-'] ∨ cleaned = ['.'] ∨ cleaned = ['-', '.'] then none
    else
      match parseFloatCleaned cleaned with
      | none => none
      | some parsed => some (if hasParenNegative && 0 < parsed then -parsed else parsed)

/-- Round to an integer count of cents, half away from zero (the default
`Intl` rounding used by `toLocaleString` with 2 fraction digits). -/
def jsRound2Cents (q : ℚ) : ℤ :=
  if q < 0 then -⌊(-q) * 100 + 1 / 2⌋ else ⌊q * 100 + 1 / 2⌋

/-- Insert a `','` after every three characters of a reversed digit string. -/
def group3Rev : List Char → List Char
  | a :: b :: c :: rest@(_ :: _) => a :: b :: c :: ',' :: group3Rev rest
  | l => l

/-- Group a digit string into thousands with `','` (en-US `toLocaleString`). -/
def groupThousands (cs : List Char) : List Char :=
  (group3Rev cs.reverse).reverse

/-- Render `cents / 100` in en-US style with exactly two fraction digits and
thousands grouping, as `Number.prototype.toLocaleString('en-US',
{minimumFractionDigits: 2, maximumFractionDigits: 2})` does. -/
def formatTwoDecimalChars (cents : ℤ) : List Char :=
  let n := cents.natAbs
  (if cents < 0 then ['-'] else [])
    ++ groupThousands (natDigitChars (n / 100))
    ++ '.' :: [digitChar (n / 10 % 10), digitChar (n % 10)]

/-- Embeds `formatAmountCellValue` (part_000 lines 854-863): empty input maps
to empty output; input that fails to parse is returned trimmed; parsed input
is rendered with two fraction digits and thousands grouping. -/
def formatAmountCellValue (value : List Char) : List Char :=
  let raw := jsTrim value
  if raw = [] then []
  else
    match parseAmountForFormatting raw with
    | none => raw
    | some parsed => formatTwoDecimalChars (jsRound2Cents parsed)

/-- A parsed statement row (the objects stored in `state.parsedByPage`). -/
structure Row where
  row_id : List Char
  date : List Char
  description : List Char
  debit : List Char
  credit : List Char
  balance : List Char
deriving DecidableEq, Repr

/-- The per-pair flag test of `computeBalanceMismatchRowIds` (part_000 lines
869-886): both balances parse, at least one flow amount parses, and the
current balance is more than 0.01 away from the running-ledger expectation. -/
def balanceMismatchCond (prev current : Row) : Bool :=
  match parseAmountForFormatting prev.balance, parseAmountForFormatting current.balance with
  | some prevBal, some currBal =>
    let debit := parseAmountForFormatting current.debit
    let credit := parseAmountForFormatting current.credit
    match debit, credit with
    | none, none => false
    | _, _ =>
      let expected := prevBal - (debit.getD 0) + (credit.getD 0)
      decide (1 / 100 < |currBal - expected|)
  | _, _ => false

/-- Loop body of `computeBalanceMismatchRowIds`: walk adjacent pairs
`(prev, current)`, skip rows whose trimmed `row_id` is blank, and collect the
ids of rows failing the ledger check. -/
def balanceMismatchAux : Row → List Row → List (List Char)
  | _, [] => []
  | prev, current :: rest =>
    (if jsTrim current.row_id ≠ [] ∧ balanceMismatchCond prev current = true
      then [jsTrim current.row_id] else [])
      ++ balanceMismatchAux current rest

/-- Embeds `computeBalanceMismatchRowIds` (part_000 lines 865-889).  The JS
returns a `Set` of row-id strings; membership in this list models membership
in that set. -/
def computeBalanceMismatchRowIds (rows : List Row) : List (List Char) :=
  if rows.length < 2 then []
  else
    match rows with
    | [] => []
    | first :: rest => balanceMismatchAux first rest

/-- JS `a || b` for strings: the empty string is falsy. -/
def jsStrOr (a b : List Char) : List Char := if a = [] then b else a

/-- JS `a || b` where `a` may also be absent (`undefined`/`null`). -/
def jsOptStrOr (a : Option (List Char)) (b : List Char) : List Char :=
  match a with
  | some s => if s = [] then b else s
  | none => b

def strQueued : List Char := ['q', 'u', 'e', 'u', 'e', 'd']
def strProcessing : List Char := ['p', 'r', 'o', 'c', 'e', 's', 's', 'i', 'n', 'g']
def strDone : List Char := ['d', 'o', 'n', 'e']
def strFailed : List Char := ['f', 'a', 'i', 'l', 'e', 'd']
def strNeedsReview : List Char :=
  ['n', 'e', 'e', 'd', 's', '_', 'r', 'e', 'v', 'i', 'e', 'w']
def strCompleted : List Char := ['c', 'o', 'm', 'p', 'l', 'e', 't', 'e', 'd']
def strStarting : List Char := ['S', 't', 'a', 'r', 't', 'i', 'n', 'g', '…']
def strBeginProcess : List Char :=
  ['B', 'e', 'g', 'i', 'n', ' ', 'P', 'r', 'o', 'c', 'e', 's', 's']

/-! ### Debounced save controller (§4.1): `persistPageRows`, `queuePageRowsSave` -/

/-- Response body of `PUT /jobs/{id}/parsed/{page}`: `{rows, summary?}`;
only the row payload affects the in-memory row state. -/
structure SaveResponse where
  rowsPayload : Option (List Row)
deriving DecidableEq, Repr

/-- Per-page save state: `state.pageSaveTokenByPage[page]` (0 when unset),
`state.parsedByPage[page]` and `state.selectedRowId` ([] models null/''). -/
structure PageSaveState where
  tok : Nat
  rows : List Row
  selected : List Char
deriving DecidableEq, Repr

/-- Rows sent to the server by `persistPageRows` (part_000 lines 941-952):
assign a padded sequential row id where the trimmed one is blank, trim text
fields, normalize amount fields. -/
def buildSavePayload (rows : List Row) : List Row :=
  rows.mapIdx fun idx row =>
    { row_id := jsStrOr (jsTrim row.row_id) (padStart3Zeros (natDigitChars (idx + 1)))
      date := jsTrim row.date
      description := jsTrim row.description
      debit := formatAmountCellValue row.debit
      credit := formatAmountCellValue row.credit
      balance := formatAmountCellValue row.balance }

/-- `persistPageRows` up to the network call (lines 954-955): increment the
page's SaveToken and capture the new value. -/
def persistSend (s : PageSaveState) : PageSaveState × Nat :=
  ({ s with tok := s.tok + 1 }, s.tok + 1)

/-- Row id used in the `sameShape` comparison (lines 968-972):
`String(row?.row_id || idx + 1)`. -/
def shapeId (row : Row) (idx : Nat) : List Char :=
  jsStrOr row.row_id (natDigitChars (idx + 1))

/-- Positional id comparison of `sameShape` (lines 967-972). -/
def sameShapeIds : Nat → List Row → List Row → Bool
  | _, [], [] => true
  | idx, a :: as, b :: bs =>
    (shapeId a idx = shapeId b idx : Bool) && sameShapeIds (idx + 1) as bs
  | _, _, _ => false

/-- `sameShape`: same count and same positional row-id sequence. -/
def sameShapeCheck (existing payload : List Row) : Bool :=
  (existing.length == payload.length) && sameShapeIds 0 existing payload

/-- In-place field copy of the `sameShape` branch (lines 975-982). -/
def copyRowInPlace (existing src : Row) : Row :=
  { row_id := jsTrim (jsStrOr src.row_id (jsStrOr existing.row_id []))
    date := jsTrim src.date
    description := jsTrim src.description
    debit := formatAmountCellValue src.debit
    credit := formatAmountCellValue src.credit
    balance := formatAmountCellValue src.balance }

/-- Row reconciliation of `persistPageRows` (lines 966-989): aligned
responses are copied field-by-field in place, otherwise the in-memory
sequence is replaced wholesale. -/
def reconcileRows (existing payload : List Row) : List Row :=
  if sameShapeCheck existing payload then
    (existing.zip payload).map fun pair => copyRowInPlace pair.1 pair.2
  else payload

/-- Response handling of `persistPageRows` (lines 963-1000): a response whose
captured token no longer equals the page's current SaveToken is discarded
without touching state; otherwise rows are reconciled and a vanished
selection is cleared. -/
def persistReceive (s : PageSaveState) (token : Nat) (resp : SaveResponse) :
    PageSaveState :=
  if s.tok ≠ token then s
  else
    match resp.rowsPayload with
    | none => s
    | some payloadRows =>
      let newRows := reconcileRows s.rows payloadRows
      let newSelected :=
        if s.selected ≠ [] ∧ ¬ payloadRows.any (fun r => r.row_id = s.selected) then []
        else s.selected
      { s with rows := newRows, selected := newSelected }

/-- `ROW_SAVE_DEBOUNCE_MS` (part_000 line 5). -/
def ROW_SAVE_DEBOUNCE_MS : Nat := 220

/-- Timeline semantics of `queuePageRowsSave` (lines 1007-1019) for one page.
Arguments: the pending timer's scheduled fire time (if armed), the number of
network saves issued so far, and the (time-ordered) list of remaining
`queuePageRowsSave` call times.  A queue call at time `q` clears any pending
timer (`window.clearTimeout`) and arms one for `q + 220`; an armed timer
whose moment arrives before the next queue call fires, deleting its entry
and issuing one `persistPageRows` network save; after the last queue call
the surviving timer fires.  Returns the total network saves issued. -/
def debounceRun : Option Nat → Nat → List Nat → Nat
  | pending, fired, [] => fired + (if pending.isSome then 1 else 0)
  | some fireT, fired, q :: qs =>
    if fireT ≤ q then debounceRun (some (q + ROW_SAVE_DEBOUNCE_MS)) (fired + 1) qs
    else debounceRun (some (q + ROW_SAVE_DEBOUNCE_MS)) fired qs
  | none, fired, q :: qs => debounceRun (some (q + ROW_SAVE_DEBOUNCE_MS)) fired qs

/-! ### Job poll loop (§4.2): `pollStatus`, `stopPolling`, `setActiveJob` -/

/-- The spec's §3 job status vocabulary. -/
inductive JobStatus
  | queued
  | processing
  | completed
  | failed
  | needsReview
deriving DecidableEq, Repr

/-- Modelled from the spec: the processing backend (its `jobs` module is not
under `src/`) reports the §3 status vocabulary on the wire.  The client fixes
the wire encoding of the spec's `completed` as the lowercase string `done`:
`setStatus` (line 684) displays raw `done` as `completed`, and `setActiveJob`
(line 1366) takes `{done, failed}` as the terminal set. -/
def statusWire : JobStatus → List Char
  | .queued => strQueued
  | .processing => strProcessing
  | .completed => strDone
  | .failed => strFailed
  | .needsReview => strNeedsReview

/-- Payload of `GET /jobs/{job_id}`: `{status, step, progress, message?,
parse_mode?}`; fields may be absent. -/
structure WireStatusPayload where
  status : Option (List Char)
  step : Option (List Char)
  progress : Option ℚ
  parse_mode : Option (List Char)
deriving DecidableEq, Repr

/-- Outcome of one poll fetch: a payload, or a thrown fetch error. -/
inductive PollOutcome
  | ok (p : WireStatusPayload)
  | fetchError
deriving Repr

/-- Observable poll-loop state for one active job: whether the 2000 ms
interval timer is armed, how many status requests were issued, how many
result-load sequences (`loadResultData`) were triggered, and how many
failure/error alerts were surfaced. -/
structure PollState where
  timerActive : Bool
  pollCount : Nat
  loadCount : Nat
  failAlerts : Nat
  errorAlerts : Nat
  displayedStatus : List Char
deriving DecidableEq, Repr

/-- Display mapping of `setStatus` (line 684): raw `done` shows as
`completed`. -/
def mapDisplayStatus (raw : List Char) : List Char :=
  if raw = strDone then strCompleted else raw

/-- One firing of the poll timer (`pollStatus`, lines 1320-1338), gated on
the timer still being armed: `stopPolling` (lines 1315-1318) clears the
interval, so a stopped timer never fires again.  On a payload: status is
lowercased; `done` stops the timer and triggers the one-shot result load;
`failed` stops the timer and surfaces the failure; anything else keeps
polling.  A thrown fetch stops the timer and surfaces an error. -/
def pollCycle (s : PollState) (o : PollOutcome) : PollState :=
  if s.timerActive = false then s
  else
    match o with
    | .fetchError =>
      { s with
        pollCount := s.pollCount + 1
        timerActive := false
        errorAlerts := s.errorAlerts + 1 }
    | .ok p =>
      let raw := (jsOptStrOr p.status []).map Char.toLower
      let s1 :=
        { s with pollCount := s.pollCount + 1, displayedStatus := mapDisplayStatus raw }
      if raw = strDone then
        { s1 with timerActive := false, loadCount := s1.loadCount + 1 }
      else if raw = strFailed then
        { s1 with timerActive := false, failAlerts := s1.failAlerts + 1 }
      else s1

/-- A sequence of poll timer firings. -/
def runPolls (s : PollState) (os : List PollOutcome) : PollState :=
  os.foldl pollCycle s

/-! ### Local job cache reconciler (§4.4): `reconcileStoredJobsStatuses` -/

/-- A client-persisted job summary (`state.uploadedJobs` entries); `progress`
and `parseMode` may be absent in older cached records. -/
structure LocalJobRecord where
  jobId : List Char
  fileName : List Char
  sizeBytes : ℚ
  lastModified : ℚ
  createdAt : ℚ
  status : List Char
  step : List Char
  progress : Option ℚ
  parseMode : Option (List Char)
deriving DecidableEq, Repr

/-- Outcome of the per-record `GET /jobs/{jobId}` in the reconciler. -/
inductive FetchResult
  | status401
  | status404
  | httpError
  | netError
  | ok (payload : WireStatusPayload)
deriving Repr

/-- Success merge of `reconcileStoredJobsStatuses` (part_000 lines 154-159):
spread the old record, overwriting `status`/`step`/`progress` with
`payload?.status || row.status || 'queued'`, `payload?.step || row.step ||
''` and `Number(payload?.progress ?? row.progress ?? 0)`. -/
def mergeStatusIntoRecord (row : LocalJobRecord) (payload : WireStatusPayload) :
    LocalJobRecord :=
  { row with
    status := jsOptStrOr payload.status (jsStrOr row.status strQueued)
    step := jsOptStrOr payload.step (jsStrOr row.step [])
    progress := some (payload.progress.getD (row.progress.getD 0)) }

/-- Loop of `reconcileStoredJobsStatuses` (lines 136-163) with the network
modelled as an oracle from job id to fetch outcome.  `none` means the whole
reconciliation aborted on a 401 (redirect to login, cache untouched).
Records with a blank trimmed job id are skipped; 404 drops the record; other
non-success responses and thrown fetches keep it; success merges status
fields. -/
def reconcileLoop (fetchRes : List Char → FetchResult) :
    List LocalJobRecord → Option (List LocalJobRecord)
  | [] => some []
  | row :: rest =>
    let jobId := jsTrim row.jobId
    if jobId = [] then reconcileLoop fetchRes rest
    else
      match fetchRes jobId with
      | .status401 => none
      | .status404 => reconcileLoop fetchRes rest
      | .httpError => (reconcileLoop fetchRes rest).map (row :: ·)
      | .netError => (reconcileLoop fetchRes rest).map (row :: ·)
      | .ok payload =>
        (reconcileLoop fetchRes rest).map (mergeStatusIntoRecord row payload :: ·)

/-- Embeds `reconcileStoredJobsStatuses` (lines 132-169): the most recent 100
cached records are reconciled; the merged list replaces the cache. -/
def reconcileStoredJobsStatuses (rows : List LocalJobRecord)
    (fetchRes : List Char → FetchResult) : Option (List LocalJobRecord) :=
  reconcileLoop fetchRes (rows.take 100)

/-! ### `setStatus` (part_000 lines 682-718) -/

/-- Clamp used for the displayed progress (line 695):
`Math.max(0, Math.min(100, Number(payload.progress ?? 0)))`. -/
def clamp0100 (q : ℚ) : ℚ := max 0 (min 100 q)

/-- Progress shown in the `#jobProgress` text and fill bar (lines 695-697). -/
def setStatusDisplayedProgress (p : WireStatusPayload) : ℚ :=
  clamp0100 (p.progress.getD 0)

/-- Partial record handed to `updateUploadedJobIfExists` by `setStatus`
(lines 709-716) and merged by spread (lines 200-203): `progress` is
`Number(payload.progress ?? 0)`, with no clamping. -/
def setStatusMergeRecord (row : LocalJobRecord) (p : WireStatusPayload) :
    LocalJobRecord :=
  { row with
    status := jsOptStrOr p.status strQueued
    step := jsOptStrOr p.step strQueued
    progress := some (p.progress.getD 0)
    parseMode := p.parse_mode }

/-! ### External feed correlator (§4.5): begin-process click handler -/

/-- An `AttachmentProcessBinding` (`state.crmProcessByAttachment` values). -/
structure AttachmentProcessBinding where
  jobId : List Char
  status : List Char
  step : List Char
  progress : ℚ
deriving DecidableEq, Repr

/-- The binding map plus the clicked button's affordance state. -/
structure CrmClickState where
  bindings : List (List Char × AttachmentProcessBinding)
  btnDisabled : Bool
  btnLabel : List Char
deriving DecidableEq, Repr

/-- Lookup in the binding map (`state.crmProcessByAttachment[attachmentId]`). -/
def lookupBinding (m : List (List Char × AttachmentProcessBinding))
    (k : List Char) : Option AttachmentProcessBinding :=
  (m.find? (fun e => e.1 = k)).map (·.2)

/-- Keyed overwrite in the binding map. -/
def insertBinding (m : List (List Char × AttachmentProcessBinding))
    (k : List Char) (v : AttachmentProcessBinding) :
    List (List Char × AttachmentProcessBinding) :=
  (k, v) :: m.filter (fun e => e.1 ≠ k)

/-- Response body of `POST /crm/attachments/{id}/begin-process`. -/
structure BeginProcessResponse where
  job_id : Option (List Char)
deriving DecidableEq, Repr

/-- Synchronous part of the begin-process click handler, before the create
response returns (part_000 lines 1594-1597): capture the prior label
(`btn.textContent || 'Begin Process'`), disable and relabel the button.  The
binding map is not touched here. -/
def beginProcessStart (s : CrmClickState) : CrmClickState × List Char :=
  let priorLabel := jsStrOr s.btnLabel strBeginProcess
  ({ s with btnDisabled := true, btnLabel := strStarting }, priorLabel)

/-- Catch branch of the handler (lines 1606-1610): surface the failure and
restore the button to its pre-attempt state; the binding map is untouched. -/
def beginProcessReject (s : CrmClickState) (priorLabel : List Char) :
    CrmClickState :=
  { s with btnDisabled := false, btnLabel := priorLabel }

/-- Then branch of the handler (lines 1598-1604): a blank `job_id` throws
into the catch; otherwise the binding for the attachment is created with
status `queued` only now, after the create response has arrived. -/
def beginProcessResolve (s : CrmClickState) (attachmentId : List Char)
    (resp : BeginProcessResponse) (priorLabel : List Char) : CrmClickState :=
  let jobId := jsTrim (jsOptStrOr resp.job_id [])
  if jobId = [] then beginProcessReject s priorLabel
  else
    { s with
      bindings :=
        insertBinding s.bindings attachmentId ⟨jobId, strQueued, strQueued, 0⟩ }

/-! ### Row order reversal: `reverseCurrentPageRows` (lines 1068-1077) -/

/-- The state `reverseCurrentPageRows` touches: the current page name, its
in-memory rows, and a counter of `queuePageRowsSave` calls issued. -/
structure CurrentPageState where
  currentPage : List Char
  rows : List Row
  queuedSaves : Nat
deriving DecidableEq, Repr

/-- Embeds `reverseCurrentPageRows`: a blank page name or fewer than two rows
is a no-op; otherwise the row list is replaced by its reverse (`slice()`
then `reverse()`), re-rendered, and a save is queued for the page — with no
no-op-detection that would skip the save. -/
def reverseCurrentPageRows (s : CurrentPageState) : CurrentPageState :=
  if jsTrim s.currentPage = [] then s
  else if s.rows.length < 2 then s
  else { s with rows := s.rows.reverse, queuedSaves := s.queuedSaves + 1 }

/-- Placeholder row used with `List.getD` when stating index-based facts. -/
def defaultRow : Row := ⟨[], [], [], [], [], []⟩

/-! ### Theorems -/

theorem persistReceive_tok (s : PageSaveState) (t : Nat) (r : SaveResponse) :
    (persistReceive s t r).tok = s.tok := by
  unfold persistReceive
  split
  · rfl
  · cases r.rowsPayload <;> simp

/-- C1: a save response is applied only when the token captured at send time
still equals the page's current SaveToken; with saves A then B both in
flight, either arrival order leaves the state at B's reconciled response,
and A's response is discarded without changing state. -/
theorem save_response_token_guard (s : PageSaveState)
    (t : Nat) (resp respA respB : SaveResponse) (ht : t ≠ s.tok) :
    persistReceive s t resp = s ∧
    (persistReceive
        (persistReceive (persistSend (persistSend s).1).1
          (persistSend s).2 respA)
        (persistSend (persistSend s).1).2 respB
      = persistReceive (persistSend (persistSend s).1).1
          (persistSend (persistSend s).1).2 respB ∧
    persistReceive
        (persistReceive (persistSend (persistSend s).1).1
          (persistSend (persistSend s).1).2 respB)
        (persistSend s).2 respA
      = persistReceive (persistSend (persistSend s).1).1
          (persistSend (persistSend s).1).2 respB) := by
  refine ⟨?_, ?_, ?_⟩
  · unfold persistReceive
    rw [if_pos (Ne.symm ht)]
  · have hA : persistReceive (persistSend (persistSend s).1).1
        (persistSend s).2 respA = (persistSend (persistSend s).1).1 := by
      unfold persistReceive
      rw [if_pos (by simp [persistSend])]
    rw [hA]
  · have htok : (persistReceive (persistSend (persistSend s).1).1
        (persistSend (persistSend s).1).2 respB).tok
        = (persistSend (persistSend s).1).1.tok := persistReceive_tok ..
    conv_lhs => rw [persistReceive]
    rw [if_pos (by rw [htok]; simp [persistSend])]

theorem save_response_token_guard_witness :
    persistReceive ⟨0, [], []⟩ 5 ⟨none⟩ = ⟨0, [], []⟩ := by
  have h := save_response_token_guard ⟨0, [], []⟩ 5 ⟨none⟩ ⟨none⟩ ⟨none⟩
    (by decide)
  exact h.1

/-- C4: N queue calls for the same page, each falling inside the previous
call's 220 ms quiet window, issue exactly one network save. -/
theorem debounce_single_save (t : Nat) (qs : List Nat)
    (hchain : List.Chain' (fun a b => b < a + ROW_SAVE_DEBOUNCE_MS) (t :: qs)) :
    debounceRun none 0 (t :: qs) = 1 := by
  have aux : ∀ (l : List Nat) (prev fired : Nat),
      List.Chain' (fun a b => b < a + ROW_SAVE_DEBOUNCE_MS) (prev :: l) →
      debounceRun (some (prev + ROW_SAVE_DEBOUNCE_MS)) fired l = fired + 1 := by
    intro l
    induction l with
    | nil => intro prev fired _; simp [debounceRun]
    | cons q rest ih =>
      intro prev fired hch
      rw [List.chain'_cons] at hch
      rw [debounceRun, if_neg (by omega)]
      exact ih q fired hch.2
  rw [debounceRun]
  exact aux qs t 0 hchain

theorem debounce_single_save_witness :
    debounceRun none 0 [0, 100, 200] = 1 :=
  debounce_single_save 0 [100, 200]
    (by simp [List.chain'_cons, ROW_SAVE_DEBOUNCE_MS])

/-- C9: with a nonblank current page and at least two rows, reversing twice
restores the original row order and queues a save both times; two queue
calls whose times are separated by at least the 220 ms window issue two
network saves (the second is not skipped). -/
theorem reverse_rows_round_trip (s : CurrentPageState) (t1 t2 : Nat)
    (hpage : jsTrim s.currentPage ≠ []) (hlen : 2 ≤ s.rows.length)
    (hgap : t1 + ROW_SAVE_DEBOUNCE_MS ≤ t2) :
    (reverseCurrentPageRows (reverseCurrentPageRows s)).rows = s.rows ∧
    (reverseCurrentPageRows (reverseCurrentPageRows s)).queuedSaves
      = s.queuedSaves + 2 ∧
    debounceRun none 0 [t1, t2] = 2 := by
  have h1 : reverseCurrentPageRows s
      = { s with rows := s.rows.reverse, queuedSaves := s.queuedSaves + 1 } := by
    unfold reverseCurrentPageRows
    rw [if_neg hpage, if_neg (by omega)]
  have h2 : reverseCurrentPageRows (reverseCurrentPageRows s)
      = { s with rows := s.rows.reverse.reverse,
                 queuedSaves := s.queuedSaves + 1 + 1 } := by
    rw [h1]
    unfold reverseCurrentPageRows
    rw [if_neg hpage, if_neg (by simp; omega)]
  refine ⟨by rw [h2]; simp, by rw [h2], ?_⟩
  rw [debounceRun, debounceRun, if_pos hgap, debounceRun]
  rfl

theorem reverse_rows_round_trip_witness :
    (reverseCurrentPageRows (reverseCurrentPageRows
        ⟨['p'], [⟨['1'], [], [], [], [], []⟩, ⟨['2'], [], [], [], [], []⟩], 0⟩)).rows
      = [⟨['1'], [], [], [], [], []⟩, ⟨['2'], [], [], [], [], []⟩] ∧
    (reverseCurrentPageRows (reverseCurrentPageRows
        ⟨['p'], [⟨['1'], [], [], [], [], []⟩, ⟨['2'], [], [], [], [], []⟩], 0⟩)).queuedSaves = 2 ∧
    debounceRun none 0 [0, 220] = 2 := by
  have h := reverse_rows_round_trip
    ⟨['p'], [⟨['1'], [], [], [], [], []⟩, ⟨['2'], [], [], [], [], []⟩], 0⟩
    0 220 (by decide) (by decide) (by decide)
  exact h

theorem runPolls_inactive (s : PollState) (os : List PollOutcome)
    (h : s.timerActive = false) : runPolls s os = s := by
  induction os with
  | nil => rfl
  | cons o rest ih =>
    show runPolls (pollCycle s o) rest = s
    have hc : pollCycle s o = s := by unfold pollCycle; rw [if_pos h]
    rw [hc]; exact ih

/-- C2: while the poll timer is armed, a payload whose status is the spec's
`completed` stops the timer and triggers exactly one result-load sequence; a
`failed` payload stops the timer and surfaces the failure; any other status
keeps the timer armed; and once the timer is stopped no further poll cycle
changes the state (the poll call count stays constant). -/
theorem poll_terminal_transition (s : PollState) (p : WireStatusPayload)
    (hact : s.timerActive = true) :
    (p.status = some (statusWire .completed) →
      (pollCycle s (.ok p)).timerActive = false ∧
      (pollCycle s (.ok p)).loadCount = s.loadCount + 1 ∧
      (pollCycle s (.ok p)).failAlerts = s.failAlerts) ∧
    (p.status = some (statusWire .failed) →
      (pollCycle s (.ok p)).timerActive = false ∧
      (pollCycle s (.ok p)).failAlerts = s.failAlerts + 1 ∧
      (pollCycle s (.ok p)).loadCount = s.loadCount) ∧
    (∀ st : JobStatus, st ≠ .completed → st ≠ .failed →
      p.status = some (statusWire st) →
      (pollCycle s (.ok p)).timerActive = true ∧
      (pollCycle s (.ok p)).loadCount = s.loadCount) ∧
    (∀ os : List PollOutcome, (pollCycle s (.ok p)).timerActive = false →
      runPolls (pollCycle s (.ok p)) os = pollCycle s (.ok p)) := by
  refine ⟨?_, ?_, ?_, fun os hstop => runPolls_inactive _ os hstop⟩
  · intro hst
    unfold pollCycle
    rw [if_neg (by rw [hact]; simp)]
    simp only [hst]
    rw [if_pos (by decide)]
    exact ⟨rfl, rfl, rfl⟩
  · intro hst
    unfold pollCycle
    rw [if_neg (by rw [hact]; simp)]
    simp only [hst]
    rw [if_neg (by decide), if_pos (by decide)]
    exact ⟨rfl, rfl, rfl⟩
  · intro st h1 h2 hst
    unfold pollCycle
    rw [if_neg (by rw [hact]; simp)]
    simp only [hst]
    cases st with
    | completed => exact absurd rfl h1
    | failed => exact absurd rfl h2
    | queued => rw [if_neg (by decide), if_neg (by decide)]; exact ⟨hact, rfl⟩
    | processing => rw [if_neg (by decide), if_neg (by decide)]; exact ⟨hact, rfl⟩
    | needsReview => rw [if_neg (by decide), if_neg (by decide)]; exact ⟨hact, rfl⟩

theorem poll_terminal_transition_witness :
    (pollCycle ⟨true, 3, 0, 0, 0, []⟩
        (.ok ⟨some (statusWire .completed), none, some 100, none⟩)).timerActive
      = false ∧
    (pollCycle ⟨true, 3, 0, 0, 0, []⟩
        (.ok ⟨some (statusWire .completed), none, some 100, none⟩)).loadCount = 1 ∧
    runPolls (pollCycle ⟨true, 3, 0, 0, 0, []⟩
        (.ok ⟨some (statusWire .completed), none, some 100, none⟩))
        [.ok ⟨some (statusWire .processing), none, none, none⟩, .fetchError]
      = pollCycle ⟨true, 3, 0, 0, 0, []⟩
        (.ok ⟨some (statusWire .completed), none, some 100, none⟩) := by
  have h := poll_terminal_transition ⟨true, 3, 0, 0, 0, []⟩
    ⟨some (statusWire .completed), none, some 100, none⟩ rfl
  exact ⟨(h.1 rfl).1, (h.1 rfl).2.1, h.2.2.2 _ (h.1 rfl).1⟩

/-- C8: while the poll timer is armed, a thrown status fetch stops the timer
and surfaces an error, and no further poll cycle changes the state — the
poll request count stays constant until the job is explicitly re-activated. -/
theorem poll_fetch_error_stops_polling (s : PollState)
    (hact : s.timerActive = true) :
    (pollCycle s .fetchError).timerActive = false ∧
    (pollCycle s .fetchError).errorAlerts = s.errorAlerts + 1 ∧
    (pollCycle s .fetchError).pollCount = s.pollCount + 1 ∧
    ∀ os : List PollOutcome,
      runPolls (pollCycle s .fetchError) os = pollCycle s .fetchError := by
  have hc : pollCycle s .fetchError
      = { s with pollCount := s.pollCount + 1, timerActive := false,
                 errorAlerts := s.errorAlerts + 1 } := by
    unfold pollCycle
    rw [if_neg (by rw [hact]; simp)]
  refine ⟨by rw [hc], by rw [hc], by rw [hc], fun os => ?_⟩
  exact runPolls_inactive _ os (by rw [hc])

theorem poll_fetch_error_stops_polling_witness :
    (pollCycle ⟨true, 1, 0, 0, 0, []⟩ .fetchError).timerActive = false ∧
    (pollCycle ⟨true, 1, 0, 0, 0, []⟩ .fetchError).pollCount = 2 ∧
    runPolls (pollCycle ⟨true, 1, 0, 0, 0, []⟩ .fetchError) [.fetchError]
      = pollCycle ⟨true, 1, 0, 0, 0, []⟩ .fetchError := by
  have h := poll_fetch_error_stops_polling ⟨true, 1, 0, 0, 0, []⟩ rfl
  exact ⟨h.1, h.2.2.1, h.2.2.2 _⟩

/-- C5: during reconciliation, a record with a nonblank job id is dropped on
404, kept unchanged on any other non-success response or thrown fetch, and
on success only `status`/`step`/`progress` are replaced by the server's
values, every field the response omits being preserved. -/
theorem reconcile_cached_record_cases (row : LocalJobRecord)
    (rest : List LocalJobRecord) (fetchRes : List Char → FetchResult)
    (hid : jsTrim row.jobId ≠ []) :
    (fetchRes (jsTrim row.jobId) = .status404 →
      reconcileLoop fetchRes (row :: rest) = reconcileLoop fetchRes rest) ∧
    (fetchRes (jsTrim row.jobId) = .httpError →
      reconcileLoop fetchRes (row :: rest)
        = (reconcileLoop fetchRes rest).map (row :: ·)) ∧
    (fetchRes (jsTrim row.jobId) = .netError →
      reconcileLoop fetchRes (row :: rest)
        = (reconcileLoop fetchRes rest).map (row :: ·)) ∧
    (∀ payload : WireStatusPayload, fetchRes (jsTrim row.jobId) = .ok payload →
      reconcileLoop fetchRes (row :: rest)
        = (reconcileLoop fetchRes rest).map (mergeStatusIntoRecord row payload :: ·) ∧
      (mergeStatusIntoRecord row payload).jobId = row.jobId ∧
      (mergeStatusIntoRecord row payload).fileName = row.fileName ∧
      (mergeStatusIntoRecord row payload).sizeBytes = row.sizeBytes ∧
      (mergeStatusIntoRecord row payload).lastModified = row.lastModified ∧
      (mergeStatusIntoRecord row payload).createdAt = row.createdAt ∧
      (mergeStatusIntoRecord row payload).parseMode = row.parseMode ∧
      (∀ st, payload.status = some st → st ≠ [] →
        (mergeStatusIntoRecord row payload).status = st) ∧
      (payload.status = none → row.status ≠ [] →
        (mergeStatusIntoRecord row payload).status = row.status) ∧
      (∀ st, payload.step = some st → st ≠ [] →
        (mergeStatusIntoRecord row payload).step = st) ∧
      (payload.step = none → row.step ≠ [] →
        (mergeStatusIntoRecord row payload).step = row.step) ∧
      (∀ pr, payload.progress = some pr →
        (mergeStatusIntoRecord row payload).progress = some pr) ∧
      (payload.progress = none → ∀ pr, row.progress = some pr →
        (mergeStatusIntoRecord row payload).progress = some pr)) := by
  have hcons : reconcileLoop fetchRes (row :: rest)
      = match fetchRes (jsTrim row.jobId) with
        | .status401 => none
        | .status404 => reconcileLoop fetchRes rest
        | .httpError => (reconcileLoop fetchRes rest).map (row :: ·)
        | .netError => (reconcileLoop fetchRes rest).map (row :: ·)
        | .ok payload =>
          (reconcileLoop fetchRes rest).map (mergeStatusIntoRecord row payload :: ·) := by
    conv_lhs => rw [reconcileLoop]
    rw [if_neg hid]
  refine ⟨fun h => ?_, fun h => ?_, fun h => ?_, fun payload h => ?_⟩
  · rw [hcons, h]
  · rw [hcons, h]
  · rw [hcons, h]
  · refine ⟨by rw [hcons, h], rfl, rfl, rfl, rfl, rfl,
      rfl, ?_, ?_, ?_, ?_, ?_, ?_⟩
    · intro st hst hne
      simp [mergeStatusIntoRecord, hst, jsOptStrOr, hne]
    · intro hst hne
      simp [mergeStatusIntoRecord, hst, jsOptStrOr, jsStrOr, hne]
    · intro st hst hne
      simp [mergeStatusIntoRecord, hst, jsOptStrOr, hne]
    · intro hst hne
      simp [mergeStatusIntoRecord, hst, jsOptStrOr, jsStrOr, hne]
    · intro pr hpr
      simp [mergeStatusIntoRecord, hpr]
    · intro hnone pr hpr
      simp [mergeStatusIntoRecord, hnone, hpr]

theorem reconcile_cached_record_cases_witness :
    reconcileLoop (fun _ => .status404)
      [⟨['j'], ['f'], 1, 0, 0, strQueued, [], some 0, none⟩] = some [] := by
  have h := reconcile_cached_record_cases
    ⟨['j'], ['f'], 1, 0, 0, strQueued, [], some 0, none⟩ []
    (fun _ => FetchResult.status404) (by decide)
  exact (h.1 rfl).trans rfl

theorem lookupBinding_insert (m : List (List Char × AttachmentProcessBinding))
    (k : List Char) (v : AttachmentProcessBinding) :
    lookupBinding (insertBinding m k v) k = some v := by
  simp [lookupBinding, insertBinding, List.find?_cons]

/-- C6 counterexample: initiating processing for an attachment with no
binding does NOT create a binding before the create response returns — after
the synchronous part of the click handler the binding map is still empty,
where the claim requires a binding with status `queued` to already exist. -/
theorem begin_process_no_optimistic_binding :
    lookupBinding
        ((beginProcessStart ⟨[], false, strBeginProcess⟩).1.bindings) ['a']
      = none ∧
    (beginProcessStart ⟨[], false, strBeginProcess⟩).1.bindings = [] := by
  exact ⟨rfl, rfl⟩

/-- C6 (amended): the click handler leaves the binding map untouched until
the create response arrives; a successful response with a nonblank `job_id`
then creates the binding with status `queued`; on failure the binding map is
unchanged and the button affordance is restored to its pre-attempt state. -/
theorem begin_process_binding_semantics (s : CrmClickState)
    (att jid priorLabel : List Char) (resp : BeginProcessResponse)
    (hresp : resp.job_id = some jid) (hjid : jsTrim jid ≠ []) :
    (beginProcessStart s).1.bindings = s.bindings ∧
    lookupBinding (beginProcessResolve s att resp priorLabel).bindings att
      = some ⟨jsTrim jid, strQueued, strQueued, 0⟩ ∧
    (beginProcessReject s priorLabel).bindings = s.bindings ∧
    (beginProcessReject (beginProcessStart s).1 (beginProcessStart s).2).btnDisabled
      = false ∧
    (s.btnLabel ≠ [] →
      (beginProcessReject (beginProcessStart s).1 (beginProcessStart s).2).btnLabel
        = s.btnLabel) := by
  have hjid' : jid ≠ [] := by
    intro h; exact hjid (by rw [h]; rfl)
  have hval : jsTrim (jsOptStrOr resp.job_id []) = jsTrim jid := by
    rw [hresp]; simp [jsOptStrOr, hjid']
  refine ⟨rfl, ?_, rfl, rfl, fun hlab => ?_⟩
  · unfold beginProcessResolve
    rw [hval, if_neg hjid]
    exact lookupBinding_insert ..
  · simp [beginProcessReject, beginProcessStart, jsStrOr, hlab]

theorem begin_process_binding_semantics_witness :
    lookupBinding
        (beginProcessResolve ⟨[], false, strBeginProcess⟩ ['a'] ⟨some ['j']⟩
          strBeginProcess).bindings ['a']
      = some ⟨['j'], strQueued, strQueued, 0⟩ := by
  have h := begin_process_binding_semantics ⟨[], false, strBeginProcess⟩
    ['a'] ['j'] strBeginProcess ⟨some ['j']⟩ rfl (by decide)
  exact h.2.1

/-- C7 counterexample: a status payload reporting progress 150 yields a
clamped displayed progress of 100, but the merged local job record and the
reconciled cache entry both store 150, outside [0, 100]. -/
theorem progress_unclamped_in_merge :
    setStatusDisplayedProgress ⟨some strProcessing, none, some 150, none⟩ = 100 ∧
    (setStatusMergeRecord ⟨['j'], [], 0, 0, 0, strQueued, [], some 0, none⟩
        ⟨some strProcessing, none, some 150, none⟩).progress = some 150 ∧
    (mergeStatusIntoRecord ⟨['j'], [], 0, 0, 0, strQueued, [], some 0, none⟩
        ⟨some strProcessing, none, some 150, none⟩).progress = some 150 ∧
    ¬ ((150 : ℚ) ≤ 100) := by
  refine ⟨?_, rfl, rfl, by norm_num⟩
  show clamp0100 150 = 100
  unfold clamp0100
  norm_num

/-- C7 (amended): only the displayed progress is clamped to [0, 100]; the
progress stored into the merged LocalJobRecord by `setStatus` and into the
reconciled cache entry is the payload's value, unclamped. -/
theorem progress_clamped_only_in_display (p : WireStatusPayload)
    (row : LocalJobRecord) :
    0 ≤ setStatusDisplayedProgress p ∧ setStatusDisplayedProgress p ≤ 100 ∧
    (∀ q : ℚ, p.progress = some q →
      (setStatusMergeRecord row p).progress = some q ∧
      (mergeStatusIntoRecord row p).progress = some q) := by
  refine ⟨le_max_left 0 _, ?_, fun q hq => ?_⟩
  · exact max_le (by norm_num) (min_le_left 100 _)
  · simp [setStatusMergeRecord, mergeStatusIntoRecord, hq]

theorem progress_clamped_only_in_display_witness :
    0 ≤ setStatusDisplayedProgress ⟨none, none, some 250, none⟩ ∧
    (setStatusMergeRecord ⟨['j'], [], 0, 0, 0, strQueued, [], some 0, none⟩
        ⟨none, none, some 250, none⟩).progress = some 250 := by
  have h := progress_clamped_only_in_display ⟨none, none, some 250, none⟩
    ⟨['j'], [], 0, 0, 0, strQueued, [], some 0, none⟩
  exact ⟨h.1, (h.2.2 250 rfl).1⟩

theorem balanceMismatchCond_iff (prev current : Row) :
    balanceMismatchCond prev current = true ↔
      ∃ pb cb : ℚ, parseAmountForFormatting prev.balance = some pb ∧
        parseAmountForFormatting current.balance = some cb ∧
        (parseAmountForFormatting current.debit ≠ none ∨
          parseAmountForFormatting current.credit ≠ none) ∧
        1 / 100 <
          |cb - (pb - ((parseAmountForFormatting current.debit).getD 0)
            + ((parseAmountForFormatting current.credit).getD 0))| := by
  unfold balanceMismatchCond
  cases hp : parseAmountForFormatting prev.balance <;>
    cases hc : parseAmountForFormatting current.balance <;>
      cases hd : parseAmountForFormatting current.debit <;>
        cases hcr : parseAmountForFormatting current.credit <;>
          simp [hd, hcr]

theorem mem_balanceMismatchAux (id : List Char) :
    ∀ (rest : List Row) (prev : Row),
      id ∈ balanceMismatchAux prev rest ↔
        ∃ j : Nat, j < rest.length ∧
          jsTrim (rest.getD j defaultRow).row_id = id ∧ id ≠ [] ∧
          balanceMismatchCond ((prev :: rest).getD j defaultRow)
            (rest.getD j defaultRow) = true := by
  intro rest
  induction rest with
  | nil => intro prev; simp [balanceMismatchAux]
  | cons cur tail ih =>
    intro prev
    rw [balanceMismatchAux]
    constructor
    · intro hmem
      rcases List.mem_append.mp hmem with hl | hr
      · by_cases hcond : jsTrim cur.row_id ≠ [] ∧ balanceMismatchCond prev cur = true
        · rw [if_pos hcond] at hl
          rcases List.mem_singleton.mp hl with rfl
          exact ⟨0, by simp, by simp, hcond.1, by simpa using hcond.2⟩
        · rw [if_neg hcond] at hl
          exact absurd hl (List.not_mem_nil _)
      · obtain ⟨j, hj, hid, hne, hcond⟩ := (ih cur).mp hr
        exact ⟨j + 1, by simpa using Nat.succ_lt_succ hj, by simpa using hid, hne,
          by simpa using hcond⟩
    · rintro ⟨j, hj, hid, hne, hcond⟩
      cases j with
      | zero =>
        simp only [List.getD_cons_zero] at hid hcond
        apply List.mem_append.mpr
        left
        rw [if_pos ⟨hid ▸ hne, hcond⟩]
        exact List.mem_singleton.mpr hid.symm
      | succ j' =>
        apply List.mem_append.mpr
        right
        refine (ih cur).mpr ⟨j', by simpa using Nat.lt_of_succ_lt_succ hj,
          by simpa using hid, hne, by simpa using hcond⟩

/-- C3 (amended): the trimmed id of a row is in the balance-mismatch set
exactly when the id is nonblank and, at some index `i ≥ 1`, the previous and
current balances both parse, at least one of the current row's debit/credit
parses, and the current balance is more than 0.01 away from
`previous balance − debit + credit` with a missing amount treated as 0.
Rows with a blank trimmed row id are never flagged. -/
theorem balance_mismatch_flags_characterization (rows : List Row)
    (id : List Char) :
    id ∈ computeBalanceMismatchRowIds rows ↔
      ∃ i : Nat, 1 ≤ i ∧ i < rows.length ∧
        jsTrim ((rows.getD i defaultRow).row_id) = id ∧ id ≠ [] ∧
        ∃ pb cb : ℚ,
          parseAmountForFormatting ((rows.getD (i - 1) defaultRow).balance)
            = some pb ∧
          parseAmountForFormatting ((rows.getD i defaultRow).balance)
            = some cb ∧
          (parseAmountForFormatting ((rows.getD i defaultRow).debit) ≠ none ∨
            parseAmountForFormatting ((rows.getD i defaultRow).credit) ≠ none) ∧
          1 / 100 <
            |cb - (pb
              - ((parseAmountForFormatting ((rows.getD i defaultRow).debit)).getD 0)
              + ((parseAmountForFormatting ((rows.getD i defaultRow).credit)).getD 0))| := by
  match rows with
  | [] =>
    constructor
    · intro h; exact absurd h (by simp [computeBalanceMismatchRowIds])
    · rintro ⟨i, h1, h2, _⟩; simp at h2
  | [r] =>
    constructor
    · intro h; exact absurd h (by simp [computeBalanceMismatchRowIds])
    · rintro ⟨i, h1, h2, _⟩; simp at h2; omega
  | r :: r2 :: tail =>
    have hcomp : computeBalanceMismatchRowIds (r :: r2 :: tail)
        = balanceMismatchAux r (r2 :: tail) := by
      unfold computeBalanceMismatchRowIds
      rw [if_neg (by simp)]
    rw [hcomp, mem_balanceMismatchAux]
    constructor
    · rintro ⟨j, hj, hid, hne, hcond⟩
      rw [balanceMismatchCond_iff] at hcond
      obtain ⟨pb, cb, h1, h2, h3, h4⟩ := hcond
      refine ⟨j + 1, by omega, by simpa using hj, by simpa using hid, hne,
        pb, cb, by simpa using h1, by simpa using h2, by simpa using h3,
        by simpa using h4⟩
    · rintro ⟨i, hi1, hi2, hid, hne, pb, cb, h1, h2, h3, h4⟩
      obtain ⟨j, rfl⟩ : ∃ j, i = j + 1 := ⟨i - 1, by omega⟩
      refine ⟨j, by simpa using hi2, by simpa using hid, hne, ?_⟩
      rw [balanceMismatchCond_iff]
      exact ⟨pb, cb, by simpa using h1, by simpa using h2, by simpa using h3,
        by simpa using h4⟩

theorem balance_mismatch_flags_characterization_witness :
    ['0', '0', '3'] ∈ computeBalanceMismatchRowIds
      [⟨['0', '0', '1'], [], [], [], [], ['1', '0', '0']⟩,
       ⟨['0', '0', '2'], [], [], ['2', '0'], [], ['8', '0']⟩,
       ⟨['0', '0', '3'], [], [], [], ['5'], ['9', '0']⟩] := by
  apply (balance_mismatch_flags_characterization
    [⟨['0', '0', '1'], [], [], [], [], ['1', '0', '0']⟩,
     ⟨['0', '0', '2'], [], [], ['2', '0'], [], ['8', '0']⟩,
     ⟨['0', '0', '3'], [], [], [], ['5'], ['9', '0']⟩]
    ['0', '0', '3']).mpr
  refine ⟨2, by omega, by simp, ?_, by simp, 80, 90, ?_, ?_, Or.inr ?_, ?_⟩ <;>
    simp [List.getD_cons_zero, List.getD_cons_succ, defaultRow,
      parseAmountForFormatting, jsTrim, isSpaceChar, isAmountKeptChar,
      parseFloatCleaned, parseFloatMag, natOfDigitChars, charDigitVal] <;>
    norm_num

/-- C3 counterexample: a second row with a blank `row_id` satisfies every
flagging condition of the claim (balances parse, the debit parses, and the
balance is off by 10 > 0.01), yet the computed mismatch set is empty — the
row is not flagged, so the claim's "exactly those rows" fails. -/
theorem balance_mismatch_blank_row_id :
    parseAmountForFormatting ['1', '0', '0'] = some 100 ∧
    parseAmountForFormatting ['9', '0'] = some 90 ∧
    parseAmountForFormatting ['2', '0'] = some 20 ∧
    parseAmountForFormatting ([] : List Char) = none ∧
    1 / 100 < |(90 : ℚ) - (100 - 20 + 0)| ∧
    computeBalanceMismatchRowIds
      [⟨['0', '0', '1'], [], [], [], [], ['1', '0', '0']⟩,
       ⟨[], [], [], ['2', '0'], [], ['9', '0']⟩] = [] := by
  refine ⟨?_, ?_, ?_, ?_, by norm_num, ?_⟩ <;>
    simp [computeBalanceMismatchRowIds, balanceMismatchAux,
      parseAmountForFormatting, jsTrim, isSpaceChar, isAmountKeptChar,
      parseFloatCleaned, parseFloatMag, natOfDigitChars, charDigitVal]

theorem dropWhile_head_false {α : Type} (p : α → Bool) (l : List α) (c : α)
    (h : (l.dropWhile p).head? = some c) : p c = false := by
  induction l with
  | nil => simp at h
  | cons x xs ih =>
    rw [List.dropWhile_cons] at h
    by_cases hx : p x
    · rw [if_pos hx] at h; exact ih h
    · rw [if_neg hx] at h
      simp at h
      subst h
      simpa using hx

theorem dropWhile_eq_self_of_head {α : Type} (p : α → Bool) (l : List α)
    (h : ∀ c, l.head? = some c → p c = false) : l.dropWhile p = l := by
  cases l with
  | nil => rfl
  | cons x xs =>
    rw [List.dropWhile_cons, if_neg]
    rw [h x rfl]
    simp

theorem dropWhile_getLast_of_ne_nil {α : Type} (p : α → Bool) (l : List α)
    (h : l.dropWhile p ≠ []) : (l.dropWhile p).getLast? = l.getLast? := by
  induction l with
  | nil => simp at h
  | cons x xs ih =>
    rw [List.dropWhile_cons]
    by_cases hx : p x
    · rw [List.dropWhile_cons, if_pos hx] at h
      rw [if_pos hx, ih h]
      have hxs : xs ≠ [] := by
        intro hnil; rw [hnil] at h; exact h rfl
      cases xs with
      | nil => exact absurd rfl hxs
      | cons y ys => rw [List.getLast?_cons_cons]
    · rw [if_neg hx]

theorem jsTrim_head_false (l : List Char) (c : Char)
    (h : (jsTrim l).head? = some c) : isSpaceChar c = false := by
  unfold jsTrim at h
  rw [List.head?_reverse] at h
  set B := ((l.dropWhile isSpaceChar).reverse.dropWhile isSpaceChar) with hB
  have hBne : B ≠ [] := by
    intro hnil; rw [hnil] at h; simp at h
  rw [hB, dropWhile_getLast_of_ne_nil _ _ (hB ▸ hBne),
    List.getLast?_reverse] at h
  exact dropWhile_head_false _ _ _ h

theorem jsTrim_getLast_false (l : List Char) (c : Char)
    (h : (jsTrim l).getLast? = some c) : isSpaceChar c = false := by
  unfold jsTrim at h
  rw [List.getLast?_reverse] at h
  exact dropWhile_head_false _ _ _ h

theorem jsTrim_eq_self_of_ends (l : List Char)
    (h1 : ∀ c, l.head? = some c → isSpaceChar c = false)
    (h2 : ∀ c, l.getLast? = some c → isSpaceChar c = false) :
    jsTrim l = l := by
  unfold jsTrim
  rw [dropWhile_eq_self_of_head _ _ h1]
  rw [dropWhile_eq_self_of_head _ _ (fun c hc => h2 c (by rwa [List.head?_reverse] at hc))]
  exact List.reverse_reverse l

theorem jsTrim_idem (l : List Char) : jsTrim (jsTrim l) = jsTrim l :=
  jsTrim_eq_self_of_ends _ (jsTrim_head_false l) (jsTrim_getLast_false l)

theorem jsTrim_eq_self_of_all (l : List Char)
    (h : ∀ c ∈ l, isSpaceChar c = false) : jsTrim l = l :=
  jsTrim_eq_self_of_ends _
    (fun c hc => h c (List.mem_of_mem_head? hc))
    (fun c hc => h c (List.mem_of_mem_getLast? hc))

theorem digitChar_isDigit (d : Nat) (h : d < 10) :
    (digitChar d).isDigit = true := by
  interval_cases d <;> decide

theorem charDigitVal_digitChar (d : Nat) (h : d < 10) :
    charDigitVal (digitChar d) = d := by
  interval_cases d <;> decide

theorem isDigit_not_space (c : Char) (h : c.isDigit = true) :
    isSpaceChar c = false := by
  unfold isSpaceChar
  simp only [Bool.or_eq_false_iff, decide_eq_false_iff_not]
  refine ⟨⟨⟨⟨⟨?_, ?_⟩, ?_⟩, ?_⟩, ?_⟩, ?_⟩ <;>
    (intro heq; rw [heq] at h; exact absurd h (by decide))

theorem isDigit_kept (c : Char) (h : c.isDigit = true) :
    isAmountKeptChar c = true := by
  unfold isAmountKeptChar
  rw [h]
  rfl

theorem natDigitChars_all_digit (n : Nat) :
    ∀ c ∈ natDigitChars n, c.isDigit = true := by
  intro c hc
  unfold natDigitChars at hc
  by_cases hn : n = 0
  · rw [if_pos hn] at hc
    simp at hc
    rw [hc]; decide
  · rw [if_neg hn] at hc
    simp only [List.mem_map, List.mem_reverse] at hc
    obtain ⟨d, hd, rfl⟩ := hc
    exact digitChar_isDigit d (Nat.digits_lt_base (by norm_num) hd)

theorem natDigitChars_ne_nil (n : Nat) : natDigitChars n ≠ [] := by
  unfold natDigitChars
  by_cases hn : n = 0
  · rw [if_pos hn]; simp
  · rw [if_neg hn]
    simp only [ne_eq, List.map_eq_nil_iff, List.reverse_eq_nil_iff]
    exact Nat.digits_ne_nil_iff_ne_zero.mpr hn

theorem foldl_digit_chars (ds : List Nat) (h : ∀ d ∈ ds, d < 10) :
    ∀ a : Nat, ((ds.map digitChar).foldl (fun x c => x * 10 + charDigitVal c) a)
      = ds.foldl (fun x d => x * 10 + d) a := by
  induction ds with
  | nil => intro a; rfl
  | cons d tl ih =>
    intro a
    simp only [List.map_cons, List.foldl_cons]
    rw [charDigitVal_digitChar d (h d (List.mem_cons_self d tl))]
    exact ih (fun x hx => h x (List.mem_cons_of_mem d hx)) _

theorem foldr_eq_ofDigits (L : List Nat) :
    L.foldr (fun d a => a * 10 + d) 0 = Nat.ofDigits 10 L := by
  induction L with
  | nil => rfl
  | cons d tl ih =>
    rw [List.foldr_cons, ih, Nat.ofDigits_cons]
    ring

theorem natOfDigitChars_natDigitChars (n : Nat) :
    natOfDigitChars (natDigitChars n) = n := by
  by_cases hn : n = 0
  · rw [hn]; rfl
  · unfold natOfDigitChars natDigitChars
    rw [if_neg hn,
      foldl_digit_chars _ (fun d hd => Nat.digits_lt_base (by norm_num)
        (List.mem_reverse.mp hd)),
      List.foldl_reverse, foldr_eq_ofDigits, Nat.ofDigits_digits]

theorem takeWhile_append_all (p : Char → Bool) (l r : List Char)
    (h : ∀ c ∈ l, p c = true) :
    (l ++ r).takeWhile p = l ++ r.takeWhile p := by
  induction l with
  | nil => rfl
  | cons x xs ih =>
    rw [List.cons_append, List.takeWhile_cons,
      if_pos (h x (List.mem_cons_self x xs)), List.cons_append,
      ih (fun c hc => h c (List.mem_cons_of_mem x hc))]

theorem filter_group3Rev (p : Char → Bool) (hp : p ',' = false) :
    ∀ l : List Char, (group3Rev l).filter p = l.filter p := by
  intro l
  induction l using group3Rev.induct with
  | case1 a b c d rest ih =>
    rw [group3Rev]
    simp [List.filter_cons, hp, ih]
  | case2 l h =>
    rw [group3Rev]
    exact h

theorem mem_group3Rev (c : Char) :
    ∀ l : List Char, c ∈ group3Rev l → c ∈ l ∨ c = ',' := by
  intro l
  induction l using group3Rev.induct with
  | case1 a b x d rest ih =>
    intro hmem
    rw [group3Rev] at hmem
    simp only [List.mem_cons] at hmem ⊢
    rcases hmem with h | h | h | h | h
    · exact Or.inl (Or.inl h)
    · exact Or.inl (Or.inr (Or.inl h))
    · exact Or.inl (Or.inr (Or.inr (Or.inl h)))
    · exact Or.inr h
    · rcases ih h with hin | hc
      · simp only [List.mem_cons] at hin
        exact Or.inl (Or.inr (Or.inr (Or.inr hin)))
      · exact Or.inr hc
  | case2 l h =>
    intro hmem
    rw [group3Rev] at hmem
    · exact Or.inl hmem
    · exact h

theorem filter_groupThousands (p : Char → Bool) (hp : p ',' = false)
    (cs : List Char) : (groupThousands cs).filter p = cs.filter p := by
  unfold groupThousands
  rw [List.filter_reverse, filter_group3Rev p hp, List.filter_reverse,
    List.reverse_reverse]

theorem mem_groupThousands (c : Char) (cs : List Char)
    (h : c ∈ groupThousands cs) : c ∈ cs ∨ c = ',' := by
  unfold groupThousands at h
  rw [List.mem_reverse] at h
  rcases mem_group3Rev c _ h with hin | hc
  · exact Or.inl (List.mem_reverse.mp hin)
  · exact Or.inr hc

theorem format_no_space (k : ℤ) :
    ∀ c ∈ formatTwoDecimalChars k, isSpaceChar c = false := by
  intro c hc
  unfold formatTwoDecimalChars at hc
  simp only [List.mem_append, List.mem_cons] at hc
  rcases hc with (hs | hg) | hdot | h1 | h2 | hnil
  · by_cases hk : k < 0
    · rw [if_pos hk] at hs
      simp at hs
      rw [hs]; decide
    · rw [if_neg hk] at hs
      simp at hs
  · rcases mem_groupThousands c _ hg with hd | hcomma
    · exact isDigit_not_space c (natDigitChars_all_digit _ c hd)
    · rw [hcomma]; decide
  · rw [hdot]; decide
  · rw [h1]
    exact isDigit_not_space _ (digitChar_isDigit _ (Nat.mod_lt _ (by norm_num)))
  · rw [h2]
    exact isDigit_not_space _ (digitChar_isDigit _ (Nat.mod_lt _ (by norm_num)))
  · simp at hnil

theorem jsTrim_format (k : ℤ) :
    jsTrim (formatTwoDecimalChars k) = formatTwoDecimalChars k :=
  jsTrim_eq_self_of_all _ (format_no_space k)

theorem format_ne_nil (k : ℤ) : formatTwoDecimalChars k ≠ [] := by
  unfold formatTwoDecimalChars
  simp

theorem format_getLast (k : ℤ) :
    (formatTwoDecimalChars k).getLast? = some (digitChar (k.natAbs % 10)) := by
  unfold formatTwoDecimalChars
  rw [List.append_assoc, List.getLast?_append_of_ne_nil _ (by simp),
    List.getLast?_append_of_ne_nil _ (by simp)]
  rfl

theorem isDigit_ne_rparen (c : Char) (h : c.isDigit = true) : c ≠ ')' := by
  intro heq; rw [heq] at h; exact absurd h (by decide)

theorem cleaned_format (k : ℤ) :
    (formatTwoDecimalChars k).filter isAmountKeptChar
      = (if k < 0 then ['-'] else []) ++ natDigitChars (k.natAbs / 100)
        ++ '.' :: [digitChar (k.natAbs / 10 % 10), digitChar (k.natAbs % 10)] := by
  have hG : (groupThousands (natDigitChars (k.natAbs / 100))).filter isAmountKeptChar
      = natDigitChars (k.natAbs / 100) := by
    rw [filter_groupThousands _ (by decide)]
    exact List.filter_eq_self.mpr fun c hc =>
      isDigit_kept c (natDigitChars_all_digit _ c hc)
  have hT : List.filter isAmountKeptChar
      ('.' :: [digitChar (k.natAbs / 10 % 10), digitChar (k.natAbs % 10)])
      = '.' :: [digitChar (k.natAbs / 10 % 10), digitChar (k.natAbs % 10)] := by
    simp only [List.filter_cons]
    rw [show isAmountKeptChar '.' = true from rfl,
      isDigit_kept _ (digitChar_isDigit _ (Nat.mod_lt _ (by norm_num))),
      isDigit_kept _ (digitChar_isDigit _ (Nat.mod_lt _ (by norm_num)))]
    rfl
  unfold formatTwoDecimalChars
  by_cases hk : k < 0
  · rw [if_pos hk]
    simp only [List.filter_append, List.filter_cons, List.filter_nil, hG, hT]
    rfl
  · rw [if_neg hk]
    simp only [List.filter_append, List.filter_cons, List.filter_nil, hG, hT]

theorem isDigit_ne_minus (c : Char) (h : c.isDigit = true) : c ≠ '-' := by
  intro heq; rw [heq] at h; exact absurd h (by decide)

theorem parseFloatMag_canonical (ds : List Char) (d1 d2 : Char)
    (hne : ds ≠ []) (hds : ∀ c ∈ ds, c.isDigit = true)
    (h1 : d1.isDigit = true) (h2 : d2.isDigit = true) :
    parseFloatMag (ds ++ '.' :: [d1, d2])
      = some ((natOfDigitChars ds : ℚ)
          + ((charDigitVal d1 * 10 + charDigitVal d2 : ℕ) : ℚ) / 100) := by
  have htake : (ds ++ '.' :: [d1, d2]).takeWhile Char.isDigit = ds := by
    rw [takeWhile_append_all _ _ _ hds, List.takeWhile_cons, if_neg (by decide)]
    simp
  have htake2 : List.takeWhile Char.isDigit [d1, d2] = [d1, d2] := by
    rw [List.takeWhile_cons, if_pos h1, List.takeWhile_cons, if_pos h2]
    rfl
  have hfrac : natOfDigitChars [d1, d2]
      = charDigitVal d1 * 10 + charDigitVal d2 := by
    simp [natOfDigitChars]
  simp only [parseFloatMag, htake, List.drop_left, htake2]
  rw [if_neg (by simp [hne])]
  rw [hfrac]
  norm_num

theorem parseFloatCleaned_not_minus (cs : List Char)
    (h : cs.head? ≠ some '-') : parseFloatCleaned cs = parseFloatMag cs := by
  unfold parseFloatCleaned
  split
  · exact absurd rfl h
  · rfl

theorem jsRound2Cents_div100 (k : ℤ) : jsRound2Cents ((k : ℚ) / 100) = k := by
  unfold jsRound2Cents
  by_cases hk : (k : ℚ) / 100 < 0
  · rw [if_pos hk]
    have h1 : -((k : ℚ) / 100) * 100 = ((-k : ℤ) : ℚ) := by
      push_cast
      field_simp
    rw [h1, Int.floor_int_add, show ⌊(1 / 2 : ℚ)⌋ = 0 from by norm_num]
    omega
  · rw [if_neg hk]
    have h1 : (k : ℚ) / 100 * 100 = ((k : ℤ) : ℚ) := by
      field_simp
    rw [h1, Int.floor_int_add, show ⌊(1 / 2 : ℚ)⌋ = 0 from by norm_num]
    omega

theorem cents_value_eq (n : Nat) :
    (natOfDigitChars (natDigitChars (n / 100)) : ℚ)
      + ((charDigitVal (digitChar (n / 10 % 10)) * 10
          + charDigitVal (digitChar (n % 10)) : ℕ) : ℚ) / 100
      = (n : ℚ) / 100 := by
  rw [natOfDigitChars_natDigitChars,
    charDigitVal_digitChar _ (Nat.mod_lt _ (by norm_num)),
    charDigitVal_digitChar _ (Nat.mod_lt _ (by norm_num))]
  have h : n / 10 % 10 * 10 + n % 10 = n % 100 := by omega
  rw [h]
  have hdm : 100 * (n / 100) + n % 100 = n := Nat.div_add_mod n 100
  field_simp
  conv_rhs => rw [← hdm]
  push_cast
  ring

theorem parse_format (k : ℤ) :
    parseAmountForFormatting (formatTwoDecimalChars k)
      = some ((k : ℚ) / 100) := by
  have hds : ∀ c ∈ natDigitChars (k.natAbs / 100), c.isDigit = true :=
    natDigitChars_all_digit _
  have hdne : natDigitChars (k.natAbs / 100) ≠ [] := natDigitChars_ne_nil _
  have h1 : (digitChar (k.natAbs / 10 % 10)).isDigit = true :=
    digitChar_isDigit _ (Nat.mod_lt _ (by norm_num))
  have h2 : (digitChar (k.natAbs % 10)).isDigit = true :=
    digitChar_isDigit _ (Nat.mod_lt _ (by norm_num))
  have hpar : decide ((formatTwoDecimalChars k).getLast? = some ')') = false := by
    rw [format_getLast]
    simp only [decide_eq_false_iff_not, Option.some.injEq]
    exact isDigit_ne_rparen _ h2
  have hmag := parseFloatMag_canonical (natDigitChars (k.natAbs / 100))
    (digitChar (k.natAbs / 10 % 10)) (digitChar (k.natAbs % 10)) hdne hds h1 h2
  rw [cents_value_eq k.natAbs] at hmag
  have hlen1 : 1 ≤ (natDigitChars (k.natAbs / 100)).length :=
    List.length_pos.mpr hdne
  simp only [parseAmountForFormatting, jsTrim_format]
  rw [if_neg (format_ne_nil k), cleaned_format k]
  by_cases hk : k < 0
  · rw [if_pos hk, List.append_assoc, List.singleton_append]
    rw [if_neg (by
      rintro (h | h | h | h) <;>
        (have hl := congrArg List.length h; simp at hl))]
    have hpc : parseFloatCleaned ('-' :: (natDigitChars (k.natAbs / 100)
        ++ '.' :: [digitChar (k.natAbs / 10 % 10), digitChar (k.natAbs % 10)]))
        = (parseFloatMag (natDigitChars (k.natAbs / 100)
            ++ '.' :: [digitChar (k.natAbs / 10 % 10), digitChar (k.natAbs % 10)])).map
          (fun q => -q) := rfl
    rw [hpc, hmag]
    have hnabs : ((k.natAbs : ℚ)) = -(k : ℚ) := by
      rw [Int.cast_natAbs]
      exact_mod_cast abs_of_neg hk
    rw [hnabs]
    simp only [Option.map_some', hpar, Bool.and_false, Bool.false_and,
      Bool.false_eq_true, if_false, Option.some.injEq]
    ring
  · rw [if_neg hk, List.nil_append]
    rw [if_neg (by
      rintro (h | h | h | h) <;>
        (have hl := congrArg List.length h; simp at hl))]
    have hhead : (natDigitChars (k.natAbs / 100)
        ++ '.' :: [digitChar (k.natAbs / 10 % 10), digitChar (k.natAbs % 10)]).head?
        ≠ some '-' := by
      cases hcase : natDigitChars (k.natAbs / 100) with
      | nil => exact absurd hcase hdne
      | cons c t =>
        rw [List.cons_append, List.head?_cons]
        intro hEq
        refine isDigit_ne_minus c
          (hds c (by rw [hcase]; exact List.mem_cons_self ..)) ?_
        injection hEq
    rw [parseFloatCleaned_not_minus _ hhead, hmag]
    have hnabs : ((k.natAbs : ℚ)) = (k : ℚ) := by
      rw [Int.cast_natAbs]
      exact_mod_cast abs_of_nonneg (not_lt.mp hk)
    rw [hnabs]
    simp only [hpar, Bool.and_false, Bool.false_and, Bool.false_eq_true,
      if_false, Option.some.injEq]

theorem formatAmountCellValue_nil (v : List Char) (h : jsTrim v = []) :
    formatAmountCellValue v = [] := by
  simp only [formatAmountCellValue]
  rw [if_pos h]

theorem formatAmountCellValue_parse_none (v : List Char)
    (h0 : jsTrim v ≠ []) (h : parseAmountForFormatting (jsTrim v) = none) :
    formatAmountCellValue v = jsTrim v := by
  simp only [formatAmountCellValue]
  rw [if_neg h0, h]

theorem formatAmountCellValue_parse_some (v : List Char) (q : ℚ)
    (h : parseAmountForFormatting (jsTrim v) = some q) :
    formatAmountCellValue v = formatTwoDecimalChars (jsRound2Cents q) := by
  have h0 : jsTrim v ≠ [] := by
    intro hnil
    rw [hnil, show parseAmountForFormatting [] = none from rfl] at h
    exact Option.noConfusion h
  simp only [formatAmountCellValue]
  rw [if_neg h0, h]

/-- C10 (amended): amount normalization is idempotent — applying
`formatAmountCellValue` twice equals applying it once, for every string —
and a nonempty already-trimmed value that fails to parse is a fixed point;
an untrimmed non-parsing value is returned trimmed, not unchanged. -/
theorem format_amount_idempotent (v : List Char) :
    formatAmountCellValue (formatAmountCellValue v) = formatAmountCellValue v ∧
    (jsTrim v = v → v ≠ [] → parseAmountForFormatting v = none →
      formatAmountCellValue v = v) := by
  constructor
  · by_cases h0 : jsTrim v = []
    · rw [formatAmountCellValue_nil v h0, formatAmountCellValue_nil [] rfl]
    · cases hp : parseAmountForFormatting (jsTrim v) with
      | none =>
        rw [formatAmountCellValue_parse_none v h0 hp,
          formatAmountCellValue_parse_none (jsTrim v)
            (by rwa [jsTrim_idem]) (by rwa [jsTrim_idem])]
        exact jsTrim_idem v
      | some q =>
        rw [formatAmountCellValue_parse_some v q hp,
          formatAmountCellValue_parse_some (formatTwoDecimalChars (jsRound2Cents q))
            ((jsRound2Cents q : ℚ) / 100)
            (by rw [jsTrim_format]; exact parse_format _),
          jsRound2Cents_div100]
  · intro ht hne hp
    rw [formatAmountCellValue_parse_none v (by rwa [ht]) (by rwa [ht]), ht]

theorem format_amount_idempotent_witness :
    formatAmountCellValue (formatAmountCellValue ['a', 'b'])
        = formatAmountCellValue ['a', 'b'] ∧
    formatAmountCellValue ['a', 'b'] = ['a', 'b'] := by
  have h := format_amount_idempotent ['a', 'b']
  exact ⟨h.1, h.2 (by decide) (by decide) (by decide)⟩

/-- C10 counterexample: the nonempty value `" a "` fails to parse and is
returned trimmed to `"a"`, not unchanged — the claim's fixed-point clause
fails on values with surrounding whitespace. -/
theorem format_amount_trims_unparsed :
    formatAmountCellValue [' ', 'a', ' '] = ['a'] ∧
    [' ', 'a', ' '] ≠ ['a'] := by
  exact ⟨by decide, by decide⟩
